import Mathlib

/-!
# Verification of the flow-graph analysis engine of `validate_flow.py`

This file is a shallow embedding, in Lean 4, of the graph construction and
path-reachability engine of `EnhancedFlowValidator`
(`sf-flow/hooks/scripts/validate_flow.py`), together with proofs of the
specification claims about it.

The embedding covers:
* the element map built by `_build_element_map` (twelve element kinds);
* the cycle-safe reachability walk `_has_dml_in_path` /
  `_has_soql_in_path` / `_has_action_in_path` (one parameterised walk,
  instantiated with the three operation predicates, exactly as the three
  Python functions are textual copies of one another up to the predicate);
* the loop iteration of `_has_dml_in_loops` / `_has_soql_in_loops` /
  `_check_action_calls_in_loop`;
* the issue emission of `_validate_logic_structure` and
  `_validate_error_handling`;
* `_check_recursive_after_update`, `_check_unconnected_elements` and
  `_check_unused_variables` together with the advisory emission of
  `_validate_architecture`.
-/

set_option maxHeartbeats 1000000
set_option linter.unusedVariables false

namespace FlowValidate

/-- The twelve element kinds of `_build_element_map` (`element_types` list in
`validate_flow.py`). -/
inductive ElemType where
  | assignments | decisions | recordCreates | recordUpdates | recordDeletes
  | recordLookups | loops | subflows | screens | actionCalls | waits | transforms
  deriving DecidableEq, Repr

/-- One flow element, with the connector structure read by the validator:
`sf:connector`, decision `sf:rules` connectors, `sf:defaultConnector`,
`sf:faultConnector` (never followed by the walks), and for loops
`sf:nextValueConnector` / `sf:noMoreValuesConnector`.  `object` and
`inputReference` are the fields read by `_check_recursive_after_update`. -/
structure Element where
  name : String
  etype : ElemType
  connector : Option String := none
  rules : List String := []
  defaultConnector : Option String := none
  faultConnector : Option String := none
  nextValueConnector : Option String := none
  noMoreValuesConnector : Option String := none
  object : Option String := none
  inputReference : Option String := none
  deriving DecidableEq, Repr

/-- The element map of `_build_element_map`: name-indexed lookup over the
flow's elements. -/
abbrev ElementMap := List Element

/-- `element_map[current]` lookup. -/
def lookupElem (m : ElementMap) (n : String) : Option Element :=
  m.find? (fun e => e.name == n)

/-- The connector targets collected by `_has_dml_in_path` lines 754-772:
the standard connector, every decision-rule connector, and the default
connector, in that (declaration) order.  The fault connector is deliberately
not collected (`# Fault connector (don't follow - error path)`). -/
def outConnectors (e : Element) : List String :=
  e.connector.toList ++ e.rules ++ e.defaultConnector.toList

/-- Number of element names not yet visited; the termination measure of the
walk (the `visited` set grows by one known element name per recursion
level). -/
def unvisited (m : ElementMap) (visited : List String) : Nat :=
  ((m.map Element.name).filter (fun n => decide (n ∉ visited))).length

theorem filter_imp_length_le {α : Type} {p q : α → Bool}
    (h : ∀ a, p a = true → q a = true) :
    ∀ l : List α, (l.filter p).length ≤ (l.filter q).length := by
  intro l
  induction l with
  | nil => simp
  | cons a t ih =>
    by_cases hp : p a = true
    · have hq := h a hp
      simp only [List.filter_cons, hp, hq, if_true, List.length_cons]
      omega
    · have hp' : p a = false := by
        cases hpa : p a
        · rfl
        · exact absurd hpa hp
      by_cases hq : q a = true
      · simp only [List.filter_cons, hp', hq, if_true, Bool.false_eq_true,
          if_false, List.length_cons]
        omega
      · have hq' : q a = false := by
          cases hqa : q a
          · rfl
          · exact absurd hqa hq
        simp only [List.filter_cons, hp', hq', Bool.false_eq_true, if_false]
        exact ih

theorem filter_imp_length_lt {α : Type} {p q : α → Bool}
    (h : ∀ a, p a = true → q a = true) {l : List α} {a : α}
    (ha : a ∈ l) (hqa : q a = true) (hpa : p a = false) :
    (l.filter p).length < (l.filter q).length := by
  induction l with
  | nil => cases ha
  | cons b t ih =>
    rcases List.mem_cons.mp ha with rfl | hat
    · simp only [List.filter_cons, hpa, hqa, if_true, Bool.false_eq_true,
        if_false, List.length_cons]
      exact Nat.lt_succ_of_le (filter_imp_length_le h t)
    · by_cases hpb : p b = true
      · have hqb := h b hpb
        simp only [List.filter_cons, hpb, hqb, if_true, List.length_cons]
        exact Nat.succ_lt_succ (ih hat)
      · have hpb' : p b = false := by
          cases hp : p b
          · rfl
          · exact absurd hp hpb
        by_cases hqb : q b = true
        · simp only [List.filter_cons, hpb', hqb, if_true, Bool.false_eq_true,
            if_false, List.length_cons]
          exact Nat.lt_succ_of_lt (ih hat)
        · have hqb' : q b = false := by
            cases hq : q b
            · rfl
            · exact absurd hq hqb
          simp only [List.filter_cons, hpb', hqb', Bool.false_eq_true, if_false]
          exact ih hat

theorem mem_names_of_lookup {m : ElementMap} {n : String} {e : Element}
    (h : lookupElem m n = some e) : n ∈ m.map Element.name := by
  have h' : m.find? (fun x => x.name == n) = some e := h
  have hmem : e ∈ m := List.mem_of_find?_eq_some h'
  have hname := List.find?_some h'
  have heq : e.name = n := by simpa using hname
  exact heq ▸ List.mem_map_of_mem Element.name hmem

theorem unvisited_lt {m : ElementMap} {visited : List String} {current : String}
    {e : Element} (hv : current ∉ visited)
    (hl : lookupElem m current = some e) :
    unvisited m (current :: visited) < unvisited m visited := by
  have himp : ∀ a : String,
      decide (a ∉ current :: visited) = true → decide (a ∉ visited) = true := by
    intro a hp
    simp only [decide_eq_true_eq] at hp ⊢
    exact fun hmem => hp (List.mem_cons_of_mem _ hmem)
  exact filter_imp_length_lt himp (mem_names_of_lookup hl)
    (by simpa using hv) (by simp)

mutual

/-- Shallow embedding of `_has_dml_in_path` (and its verbatim copies
`_has_soql_in_path`, `_has_action_in_path`), parameterised by the
operation predicate `isOp` that is the only difference between the three
Python functions.  Guard order follows the source exactly: visited check,
loop-back check, exit-target check, element lookup, operation check, then
recursion over the non-fault connectors with a per-branch copy of the
visited set (`visited.copy()` at line 776). -/
def hasOpInPath (isOp : ElemType → Bool) (m : ElementMap)
    (current loopName : String) (exitTarget : Option String)
    (visited : List String) : Bool :=
  if current ∈ visited then false
  else if current = loopName then false
  else if exitTarget = some current then false
  else
    match hfind : lookupElem m current with
    | none => false
    | some e =>
      if isOp e.etype = true then true
      else anyOpInPath isOp m (outConnectors e) loopName exitTarget
        (current :: visited)
termination_by (unvisited m visited, 0)
decreasing_by
  apply Prod.Lex.left
  exact unvisited_lt (by assumption) hfind

/-- The `for next_target in connectors` loop of `_has_dml_in_path`: true as
soon as one branch returns true. -/
def anyOpInPath (isOp : ElemType → Bool) (m : ElementMap)
    (targets : List String) (loopName : String) (exitTarget : Option String)
    (visited : List String) : Bool :=
  match targets with
  | [] => false
  | t :: ts =>
    hasOpInPath isOp m t loopName exitTarget visited
      || anyOpInPath isOp m ts loopName exitTarget visited
termination_by (unvisited m visited, targets.length + 1)
decreasing_by
  · apply Prod.Lex.right
    simp only [List.length_cons]
    omega
  · apply Prod.Lex.right
    simp only [List.length_cons]
    omega

end

theorem anyOpInPath_nil (isOp : ElemType → Bool) (m : ElementMap)
    (loopName : String) (exitTarget : Option String) (visited : List String) :
    anyOpInPath isOp m [] loopName exitTarget visited = false := by
  unfold anyOpInPath
  rfl

theorem anyOpInPath_cons (isOp : ElemType → Bool) (m : ElementMap)
    (t : String) (ts : List String) (loopName : String)
    (exitTarget : Option String) (visited : List String) :
    anyOpInPath isOp m (t :: ts) loopName exitTarget visited =
      (hasOpInPath isOp m t loopName exitTarget visited
        || anyOpInPath isOp m ts loopName exitTarget visited) := by
  conv_lhs => unfold anyOpInPath

/-- `if current in visited: return False`. -/
theorem hasOpInPath_visited {isOp : ElemType → Bool} {m : ElementMap}
    {current loopName : String} {exitTarget : Option String}
    {visited : List String} (h : current ∈ visited) :
    hasOpInPath isOp m current loopName exitTarget visited = false := by
  unfold hasOpInPath
  simp [h]

/-- `if current == loop_name: return False` (expected repeat-iteration
loop-back). -/
theorem hasOpInPath_loop {isOp : ElemType → Bool} {m : ElementMap}
    {current loopName : String} {exitTarget : Option String}
    {visited : List String} (h : current = loopName) :
    hasOpInPath isOp m current loopName exitTarget visited = false := by
  unfold hasOpInPath
  simp [h]

/-- `if current == exit_target: return False` (anything from the exit point
on is outside the loop). -/
theorem hasOpInPath_exit {isOp : ElemType → Bool} {m : ElementMap}
    {current loopName : String} {exitTarget : Option String}
    {visited : List String} (h : exitTarget = some current) :
    hasOpInPath isOp m current loopName exitTarget visited = false := by
  unfold hasOpInPath
  by_cases h1 : current ∈ visited
  · simp [h1]
  · by_cases h2 : current = loopName
    · simp [h1, h2]
    · simp [h1, h2, h]

/-- `if current not in element_map: return False` (dangling target). -/
theorem hasOpInPath_dangling {isOp : ElemType → Bool} {m : ElementMap}
    {current loopName : String} {exitTarget : Option String}
    {visited : List String} (h : lookupElem m current = none) :
    hasOpInPath isOp m current loopName exitTarget visited = false := by
  unfold hasOpInPath
  by_cases h1 : current ∈ visited
  · simp [h1]
  · by_cases h2 : current = loopName
    · simp [h1, h2]
    · by_cases h3 : exitTarget = some current
      · simp [h1, h2, h3]
      · simp only [h1, h2, h3, if_false, ite_false]
        split
        · rfl
        · rename_i e heq
          rw [h] at heq
          cases heq

/-- The element is a matching operation: short-circuit `return True`. -/
theorem hasOpInPath_op {isOp : ElemType → Bool} {m : ElementMap}
    {current loopName : String} {exitTarget : Option String}
    {visited : List String} {e : Element}
    (h1 : current ∉ visited) (h2 : current ≠ loopName)
    (h3 : exitTarget ≠ some current) (h4 : lookupElem m current = some e)
    (h5 : isOp e.etype = true) :
    hasOpInPath isOp m current loopName exitTarget visited = true := by
  unfold hasOpInPath
  simp only [h1, h2, h3, if_false, ite_false]
  split
  · rename_i heq
    rw [h4] at heq
    cases heq
  · rename_i e' heq
    rw [h4] at heq
    cases heq
    simp [h5]

/-- No match here: recurse over the non-fault connectors with the visited
set extended by the current element. -/
theorem hasOpInPath_step {isOp : ElemType → Bool} {m : ElementMap}
    {current loopName : String} {exitTarget : Option String}
    {visited : List String} {e : Element}
    (h1 : current ∉ visited) (h2 : current ≠ loopName)
    (h3 : exitTarget ≠ some current) (h4 : lookupElem m current = some e)
    (h5 : isOp e.etype = false) :
    hasOpInPath isOp m current loopName exitTarget visited =
      anyOpInPath isOp m (outConnectors e) loopName exitTarget
        (current :: visited) := by
  unfold hasOpInPath
  simp only [h1, h2, h3, if_false, ite_false]
  split
  · rename_i heq
    rw [h4] at heq
    cases heq
  · rename_i e' heq
    rw [h4] at heq
    cases heq
    simp [h5]

/-! ## A step-bounded interpreter of the same walk

`hasOpInPathF fuel …` performs at most `fuel` nested recursion levels and
returns `none` when the budget is exhausted.  It is structurally recursive
(hence directly computable) and agrees with `hasOpInPath` whenever the
budget exceeds the number of unvisited element names — which is the formal
content of the termination claim: on every finite graph the walk finishes
within `|graph| + 1` nested levels. -/
def hasOpInPathF : Nat → (ElemType → Bool) → ElementMap → String → String →
    Option String → List String → Option Bool
  | 0, _, _, _, _, _, _ => none
  | Nat.succ fuel, isOp, m, current, loopName, exitTarget, visited =>
    if current ∈ visited then some false
    else if current = loopName then some false
    else if exitTarget = some current then some false
    else
      match lookupElem m current with
      | none => some false
      | some e =>
        if isOp e.etype = true then some true
        else
          (outConnectors e).foldr
            (fun t acc =>
              match hasOpInPathF fuel isOp m t loopName exitTarget
                  (current :: visited) with
              | none => none
              | some true => some true
              | some false => acc)
            (some false)

theorem unvisited_le_length (m : ElementMap) (visited : List String) :
    unvisited m visited ≤ m.length := by
  calc unvisited m visited ≤ (m.map Element.name).length :=
        List.length_filter_le _ _
    _ = m.length := List.length_map _ _

/-- Core agreement lemma: with strictly more fuel than unvisited element
names, the bounded walk returns `some` of the unbounded walk's verdict. -/
theorem hasOpInPathF_correct (isOp : ElemType → Bool) (m : ElementMap) :
    ∀ fuel : Nat, ∀ visited : List String, unvisited m visited < fuel →
      ∀ current loopName exitTarget,
        hasOpInPathF fuel isOp m current loopName exitTarget visited =
          some (hasOpInPath isOp m current loopName exitTarget visited) := by
  intro fuel
  induction fuel using Nat.strong_induction_on with
  | _ fuel ih =>
    intro visited hlt current loopName exitTarget
    match fuel, hlt with
    | Nat.succ fuel, hlt =>
      by_cases h1 : current ∈ visited
      · simp [hasOpInPathF, h1, hasOpInPath_visited h1]
      · by_cases h2 : current = loopName
        · rw [hasOpInPath_loop h2]
          simp [hasOpInPathF, h1, h2]
        · by_cases h3 : exitTarget = some current
          · rw [hasOpInPath_exit h3]
            simp [hasOpInPathF, h1, h2, h3]
          · match hfind : lookupElem m current with
            | none =>
              simp [hasOpInPathF, h1, h2, h3, hfind,
                hasOpInPath_dangling hfind]
            | some e =>
              by_cases h5 : isOp e.etype = true
              · simp [hasOpInPathF, h1, h2, h3, hfind, h5,
                  hasOpInPath_op h1 h2 h3 hfind h5]
              · have h5' : isOp e.etype = false := by
                  cases hop : isOp e.etype
                  · rfl
                  · exact absurd hop h5
                have hdec : unvisited m (current :: visited) < fuel := by
                  have := unvisited_lt h1 hfind
                  omega
                have hfuel : fuel < Nat.succ fuel := Nat.lt_succ_self _
                rw [hasOpInPath_step h1 h2 h3 hfind h5']
                simp only [hasOpInPathF, h1, h2, h3, hfind, h5',
                  if_false, ite_false, Bool.false_eq_true]
                induction outConnectors e with
                | nil => simp [anyOpInPath_nil]
                | cons t ts ihts =>
                  rw [anyOpInPath_cons]
                  simp only [List.foldr_cons]
                  rw [ih fuel hfuel (current :: visited) hdec t loopName
                    exitTarget]
                  cases hasOpInPath isOp m t loopName exitTarget
                      (current :: visited)
                  · simp [ihts]
                  · simp

/-- Evaluation bridge: the walk may be computed by the step-bounded
interpreter with budget `|graph| + 1`. -/
theorem hasOpInPath_eq_F (isOp : ElemType → Bool) (m : ElementMap)
    (current loopName : String) (exitTarget : Option String)
    (visited : List String) :
    hasOpInPath isOp m current loopName exitTarget visited =
      (hasOpInPathF (m.length + 1) isOp m current loopName exitTarget
        visited).getD false := by
  rw [hasOpInPathF_correct isOp m (m.length + 1) visited
    (Nat.lt_succ_of_le (unvisited_le_length m visited))]
  rfl

/-! ## The three loop-based detectors -/

/-- The DML check of `_has_dml_in_path` line 751:
`elem_type in ['recordCreates', 'recordUpdates', 'recordDeletes']`. -/
def isDML : ElemType → Bool
  | ElemType.recordCreates => true
  | ElemType.recordUpdates => true
  | ElemType.recordDeletes => true
  | _ => false

/-- The SOQL check of `_has_soql_in_path` line 1284:
`elem_type == 'recordLookups'`. -/
def isSOQL : ElemType → Bool
  | ElemType.recordLookups => true
  | _ => false

/-- The action check of `_has_action_in_path` line 1351:
`elem_type == 'actionCalls'`. -/
def isAction : ElemType → Bool
  | ElemType.actionCalls => true
  | _ => false

/-- The shared structure of `_has_dml_in_loops`, `_has_soql_in_loops` and
`_check_action_calls_in_loop`: for every `loops` element, if it has a
`nextValueConnector` (otherwise `continue`), trace the path from that body
entry with the loop itself and the `noMoreValuesConnector` target (when
present) as sentinels, starting from an empty visited set; return `True`
as soon as one loop's trace finds the operation. -/
def hasOpInLoops (isOp : ElemType → Bool) (m : ElementMap) : Bool :=
  (m.filter (fun e => e.etype == ElemType.loops)).any (fun lp =>
    match lp.nextValueConnector with
    | none => false
    | some body =>
      hasOpInPath isOp m body lp.name lp.noMoreValuesConnector [])

/-- `_has_dml_in_loops`. -/
def hasDmlInLoops (m : ElementMap) : Bool := hasOpInLoops isDML m

/-- `_has_soql_in_loops`. -/
def hasSoqlInLoops (m : ElementMap) : Bool := hasOpInLoops isSOQL m

/-- `_check_action_calls_in_loop`. -/
def checkActionCallsInLoop (m : ElementMap) : Bool := hasOpInLoops isAction m

/-- Step-bounded variant of `hasOpInLoops`, for concrete evaluation. -/
def hasOpInLoopsF (fuel : Nat) (isOp : ElemType → Bool) (m : ElementMap) :
    Bool :=
  (m.filter (fun e => e.etype == ElemType.loops)).any (fun lp =>
    match lp.nextValueConnector with
    | none => false
    | some body =>
      (hasOpInPathF fuel isOp m body lp.name lp.noMoreValuesConnector
        []).getD false)

theorem any_congr_of_eq {α : Type} {f g : α → Bool}
    (h : ∀ a, f a = g a) : ∀ l : List α, l.any f = l.any g := by
  intro l
  induction l with
  | nil => rfl
  | cons a t ih => simp [List.any_cons, h a, ih]

theorem hasOpInLoops_eq_F (isOp : ElemType → Bool) (m : ElementMap) :
    hasOpInLoops isOp m = hasOpInLoopsF (m.length + 1) isOp m := by
  unfold hasOpInLoops hasOpInLoopsF
  apply any_congr_of_eq
  intro lp
  cases lp.nextValueConnector
  · rfl
  · simp only [hasOpInPath_eq_F]

/-! ## Path semantics of the walk -/

theorem anyOpInPath_eq_true_iff (isOp : ElemType → Bool) (m : ElementMap)
    (ts : List String) (loopName : String) (exitTarget : Option String)
    (visited : List String) :
    anyOpInPath isOp m ts loopName exitTarget visited = true ↔
      ∃ t ∈ ts, hasOpInPath isOp m t loopName exitTarget visited = true := by
  induction ts with
  | nil => simp [anyOpInPath_nil]
  | cons t ts ih => simp [anyOpInPath_cons, Bool.or_eq_true, ih]

/-- A path of the kind the specification quantifies over: a chain of
non-fault connector hops (standard, decision-rule or default connector)
from a start element to an element satisfying the predicate, that touches
neither of the two sentinels (the originating loop element and, when
present, its declared exit target) and only resolvable elements.
`l` records the sequence of element names on the path. -/
inductive PathTo (isOp : ElemType → Bool) (m : ElementMap)
    (loopName exitTarget : Option String) : String → List String → Prop where
  | found {u : String} {e : Element} :
      loopName ≠ some u → exitTarget ≠ some u →
      lookupElem m u = some e → isOp e.etype = true →
      PathTo isOp m loopName exitTarget u [u]
  | step {u v : String} {e : Element} {l : List String} :
      loopName ≠ some u → exitTarget ≠ some u →
      lookupElem m u = some e → v ∈ outConnectors e →
      PathTo isOp m loopName exitTarget v l →
      PathTo isOp m loopName exitTarget u (u :: l)

/-- Soundness half of the walk: a `true` verdict always comes from an
actual sentinel-avoiding path to a matching element. -/
theorem pathTo_of_walk {isOp : ElemType → Bool} {m : ElementMap}
    {loopName : String} {exitTarget : Option String} :
    ∀ k : Nat, ∀ visited : List String, unvisited m visited ≤ k →
      ∀ current : String,
        hasOpInPath isOp m current loopName exitTarget visited = true →
        ∃ l, PathTo isOp m (some loopName) exitTarget current l := by
  intro k
  induction k using Nat.strong_induction_on with
  | _ k ih =>
    intro visited hk current hwalk
    by_cases h1 : current ∈ visited
    · rw [hasOpInPath_visited h1] at hwalk
      cases hwalk
    · by_cases h2 : current = loopName
      · rw [hasOpInPath_loop h2] at hwalk
        cases hwalk
      · by_cases h3 : exitTarget = some current
        · rw [hasOpInPath_exit h3] at hwalk
          cases hwalk
        · cases hfind : lookupElem m current with
          | none =>
            rw [hasOpInPath_dangling hfind] at hwalk
            cases hwalk
          | some e =>
            by_cases h5 : isOp e.etype = true
            · refine ⟨[current], PathTo.found ?_ h3 hfind h5⟩
              intro hc
              exact h2 (by injection hc with hc'; exact hc'.symm)
            · have h5' : isOp e.etype = false := by
                cases hop : isOp e.etype
                · rfl
                · exact absurd hop h5
              rw [hasOpInPath_step h1 h2 h3 hfind h5'] at hwalk
              obtain ⟨v, hv, hwv⟩ :=
                (anyOpInPath_eq_true_iff isOp m (outConnectors e) loopName
                  exitTarget (current :: visited)).mp hwalk
              have hdec : unvisited m (current :: visited) < k :=
                Nat.lt_of_lt_of_le (unvisited_lt h1 hfind) hk
              obtain ⟨l, hl⟩ := ih (unvisited m (current :: visited)) hdec
                (current :: visited) (Nat.le_refl _) v hwv
              refine ⟨current :: l, PathTo.step ?_ h3 hfind hv hl⟩
              intro hc
              exact h2 (by injection hc with hc'; exact hc'.symm)

/-- Any suffix of a path (starting at an element on the path) is itself a
path. -/
theorem pathTo_suffix {isOp : ElemType → Bool} {m : ElementMap}
    {loopName exitTarget : Option String} :
    ∀ {u : String} {l : List String}, PathTo isOp m loopName exitTarget u l →
      ∀ pre w post, l = pre ++ w :: post →
        PathTo isOp m loopName exitTarget w (w :: post) := by
  intro u l hp
  induction hp with
  | found h1 h2 h3 h4 =>
    intro pre w post heq
    cases pre with
    | nil =>
      simp only [List.nil_append, List.cons.injEq] at heq
      obtain ⟨rfl, rfl⟩ := heq
      exact PathTo.found h1 h2 h3 h4
    | cons a pre' =>
      simp only [List.cons_append, List.cons.injEq] at heq
      exact absurd heq.2 (by simp)
  | step h1 h2 h3 hv hpl ihl =>
    intro pre w post heq
    cases pre with
    | nil =>
      simp only [List.nil_append, List.cons.injEq] at heq
      obtain ⟨rfl, rfl⟩ := heq
      exact PathTo.step h1 h2 h3 hv hpl
    | cons a pre' =>
      simp only [List.cons_append, List.cons.injEq] at heq
      exact ihl pre' w post heq.2

/-- Every path can be shortened to a duplicate-free path with the same
endpoints. -/
theorem pathTo_nodup {isOp : ElemType → Bool} {m : ElementMap}
    {loopName exitTarget : Option String} :
    ∀ {u : String} {l : List String}, PathTo isOp m loopName exitTarget u l →
      ∃ l', l'.Nodup ∧ PathTo isOp m loopName exitTarget u l' := by
  intro u l hp
  induction hp with
  | found h1 h2 h3 h4 =>
    exact ⟨_, List.nodup_singleton _, PathTo.found h1 h2 h3 h4⟩
  | step h1 h2 h3 hv hpl ihl =>
    rename_i u v e l2
    obtain ⟨l', hnd, hp'⟩ := ihl
    by_cases hu : u ∈ l'
    · obtain ⟨s, t2, rfl⟩ := List.append_of_mem hu
      refine ⟨u :: t2, ?_, pathTo_suffix hp' s u t2 rfl⟩
      exact hnd.sublist (List.sublist_append_right s (u :: t2))
    · exact ⟨u :: l', List.nodup_cons.mpr ⟨hu, hnd⟩,
        PathTo.step h1 h2 h3 hv hp'⟩

/-- Completeness half of the walk: a duplicate-free sentinel-avoiding path
whose elements are all unvisited forces a `true` verdict.  The per-branch
cloning of the visited set is exactly what makes the `∀ visited`
generalisation go through: siblings never see each other's exploration. -/
theorem walk_of_pathTo {isOp : ElemType → Bool} {m : ElementMap}
    {loopName : String} {exitTarget : Option String} :
    ∀ {u : String} {l : List String},
      PathTo isOp m (some loopName) exitTarget u l → l.Nodup →
      ∀ visited : List String, (∀ x ∈ l, x ∉ visited) →
      hasOpInPath isOp m u loopName exitTarget visited = true := by
  intro u l hp
  induction hp with
  | found h1 h2 h3 h4 =>
    rename_i u e
    intro hnd visited hdisj
    refine hasOpInPath_op ?_ ?_ h2 h3 h4
    · exact hdisj u (by simp)
    · intro hc
      exact h1 (by rw [hc])
  | step h1 h2 h3 hv hpl ihl =>
    rename_i u v e l2
    intro hnd visited hdisj
    have hu_nvis : u ∉ visited := hdisj u (by simp)
    have hne : u ≠ loopName := fun hc => h1 (by rw [hc])
    by_cases h5 : isOp e.etype = true
    · exact hasOpInPath_op hu_nvis hne h2 h3 h5
    · have h5' : isOp e.etype = false := by
        cases hop : isOp e.etype
        · rfl
        · exact absurd hop h5
      rw [hasOpInPath_step hu_nvis hne h2 h3 h5']
      apply (anyOpInPath_eq_true_iff isOp m (outConnectors e) loopName
        exitTarget (u :: visited)).mpr
      refine ⟨v, hv, ?_⟩
      have hnd2 : l2.Nodup := (List.nodup_cons.mp hnd).2
      have hul2 : u ∉ l2 := (List.nodup_cons.mp hnd).1
      refine ihl hnd2 (u :: visited) ?_
      intro x hx
      simp only [List.mem_cons, not_or]
      exact ⟨fun hc => hul2 (hc ▸ hx), hdisj x (List.mem_cons_of_mem _ hx)⟩

/-- One finding record of `_validate_logic_structure` /
`_validate_error_handling`: the `severity` and `message` fields of the
dictionaries appended to `critical_issues` / `warnings`. -/
structure Issue where
  severity : String
  message : String
  deriving DecidableEq, Repr

/-- The critical issue appended when `_has_dml_in_loops()` is true
(line 210). -/
def dmlIssue : Issue :=
  ⟨"CRITICAL", "DML operations found inside loops - WILL CAUSE BULK FAILURES"⟩

/-- The critical issue appended when `_has_soql_in_loops()` is true
(line 221). -/
def soqlIssue : Issue :=
  ⟨"CRITICAL", "SOQL queries found inside loops - WILL HIT GOVERNOR LIMITS"⟩

/-- The warning appended when `_check_action_calls_in_loop()` is true
(line 232). -/
def actionWarning : Issue :=
  ⟨"HIGH", "Apex action calls found inside loops - callout limit risk"⟩

/-- The `critical_issues` list built by `_validate_logic_structure`
(lines 207-225): one aggregated issue per operation category and document,
regardless of how many loops offend. -/
def logicStructureCriticalIssues (m : ElementMap) : List Issue :=
  (if hasDmlInLoops m then [dmlIssue] else [])
    ++ (if hasSoqlInLoops m then [soqlIssue] else [])

/-- The `warnings` list built by `_validate_logic_structure`
(lines 230-236). -/
def logicStructureWarnings (m : ElementMap) : List Issue :=
  if checkActionCallsInLoop m then [actionWarning] else []

/-! ## Fault-path edges are never followed

Erasing every fault connector from the graph leaves each walk and each
loop-based detector verdict unchanged, because `outConnectors` (the only
successor enumeration the walk performs) never reads the fault
connector. -/

/-- Drop the fault connector of one element. -/
def eraseFault (e : Element) : Element := { e with faultConnector := none }

/-- Drop every fault connector in the graph. -/
def eraseFaults (m : ElementMap) : ElementMap := m.map eraseFault

theorem names_eraseFaults (m : ElementMap) :
    (eraseFaults m).map Element.name = m.map Element.name := by
  induction m with
  | nil => rfl
  | cons e t ih => simp [eraseFaults, eraseFault]

theorem lookupElem_eraseFaults (m : ElementMap) (n : String) :
    lookupElem (eraseFaults m) n = (lookupElem m n).map eraseFault := by
  induction m with
  | nil => rfl
  | cons e t ih =>
    show lookupElem (eraseFault e :: eraseFaults t) n = _
    by_cases h : (e.name == n)
    · have h' : ((eraseFault e).name == n) = true := h
      simp [lookupElem, List.find?_cons, h, h']
    · have hf : (e.name == n) = false := by
        cases hb : (e.name == n)
        · rfl
        · exact absurd hb h
      have h' : ((eraseFault e).name == n) = false := hf
      simp only [lookupElem, List.find?_cons, hf, h'] at ih ⊢
      exact ih

theorem unvisited_eraseFaults (m : ElementMap) (visited : List String) :
    unvisited (eraseFaults m) visited = unvisited m visited := by
  unfold unvisited
  rw [names_eraseFaults]

theorem walk_eraseFaults (isOp : ElemType → Bool) (m : ElementMap) :
    ∀ k : Nat, ∀ visited : List String, unvisited m visited ≤ k →
      ∀ current loopName exitTarget,
        hasOpInPath isOp (eraseFaults m) current loopName exitTarget visited =
          hasOpInPath isOp m current loopName exitTarget visited := by
  intro k
  induction k using Nat.strong_induction_on with
  | _ k ih =>
    intro visited hk current loopName exitTarget
    by_cases h1 : current ∈ visited
    · rw [hasOpInPath_visited h1, hasOpInPath_visited h1]
    · by_cases h2 : current = loopName
      · rw [hasOpInPath_loop h2, hasOpInPath_loop h2]
      · by_cases h3 : exitTarget = some current
        · rw [hasOpInPath_exit h3, hasOpInPath_exit h3]
        · cases hfind : lookupElem m current with
          | none =>
            have hfind' : lookupElem (eraseFaults m) current = none := by
              rw [lookupElem_eraseFaults, hfind]
              rfl
            rw [hasOpInPath_dangling hfind, hasOpInPath_dangling hfind']
          | some e =>
            have hfind' : lookupElem (eraseFaults m) current =
                some (eraseFault e) := by
              rw [lookupElem_eraseFaults, hfind]
              rfl
            by_cases h5 : isOp e.etype = true
            · have h5' : isOp (eraseFault e).etype = true := h5
              rw [hasOpInPath_op h1 h2 h3 hfind h5,
                hasOpInPath_op h1 h2 h3 hfind' h5']
            · have h5f : isOp e.etype = false := by
                cases hop : isOp e.etype
                · rfl
                · exact absurd hop h5
              have h5f' : isOp (eraseFault e).etype = false := h5f
              rw [hasOpInPath_step h1 h2 h3 hfind h5f,
                hasOpInPath_step h1 h2 h3 hfind' h5f']
              have hout : outConnectors (eraseFault e) = outConnectors e := rfl
              rw [hout]
              have hdec : unvisited m (current :: visited) < k :=
                Nat.lt_of_lt_of_le (unvisited_lt h1 hfind) hk
              induction outConnectors e with
              | nil => rw [anyOpInPath_nil, anyOpInPath_nil]
              | cons t ts ihts =>
                rw [anyOpInPath_cons, anyOpInPath_cons]
                rw [ih (unvisited m (current :: visited)) hdec
                  (current :: visited) (Nat.le_refl _) t loopName exitTarget]
                rw [ihts]

theorem hasOpInLoops_eraseFaults (isOp : ElemType → Bool) (m : ElementMap) :
    hasOpInLoops isOp (eraseFaults m) = hasOpInLoops isOp m := by
  unfold hasOpInLoops
  have hfilter : ∀ l : ElementMap,
      (l.map eraseFault).filter (fun e => e.etype == ElemType.loops) =
        (l.filter (fun e => e.etype == ElemType.loops)).map eraseFault := by
    intro l
    induction l with
    | nil => rfl
    | cons e t ih =>
      by_cases h : (e.etype == ElemType.loops)
      · have h' : ((eraseFault e).etype == ElemType.loops) = true := h
        simp [List.filter_cons, h, h', ih]
      · have hf : (e.etype == ElemType.loops) = false := by
          cases hb : (e.etype == ElemType.loops)
          · rfl
          · exact absurd hb h
        have h' : ((eraseFault e).etype == ElemType.loops) = false := hf
        simp [List.filter_cons, hf, h', ih]
  show ((eraseFaults m).filter _).any _ = _
  rw [show eraseFaults m = m.map eraseFault from rfl, hfilter, List.any_map]
  apply any_congr_of_eq
  intro lp
  show (match (eraseFault lp).nextValueConnector with
      | none => false
      | some body => hasOpInPath isOp (eraseFaults m) body (eraseFault lp).name
          (eraseFault lp).noMoreValuesConnector []) =
    (match lp.nextValueConnector with
      | none => false
      | some body => hasOpInPath isOp m body lp.name
          lp.noMoreValuesConnector [])
  rw [show (eraseFault lp).nextValueConnector = lp.nextValueConnector from rfl]
  cases hb : lp.nextValueConnector with
  | none => rfl
  | some body =>
    show hasOpInPath isOp (eraseFaults m) body (eraseFault lp).name
        (eraseFault lp).noMoreValuesConnector [] =
      hasOpInPath isOp m body lp.name lp.noMoreValuesConnector []
    rw [walk_eraseFaults isOp m (unvisited m []) [] (Nat.le_refl _)]
    rfl

theorem logicIssues_eraseFaults (m : ElementMap) :
    logicStructureCriticalIssues (eraseFaults m) =
        logicStructureCriticalIssues m
      ∧ logicStructureWarnings (eraseFaults m) = logicStructureWarnings m := by
  unfold logicStructureCriticalIssues logicStructureWarnings hasDmlInLoops
    hasSoqlInLoops checkActionCallsInLoop
  rw [hasOpInLoops_eraseFaults, hasOpInLoops_eraseFaults,
    hasOpInLoops_eraseFaults]
  exact ⟨rfl, rfl⟩

/-! ## Flow-level data and the non-reachability detectors -/

/-- The fields of the `sf:start` element read by the validator: trigger
type, trigger object, presence of a `filterLogic` child, number of
`filters` children, and the start connector target. -/
structure StartInfo where
  triggerType : Option String := none
  object : Option String := none
  filterLogicPresent : Bool := false
  filtersCount : Nat := 0
  connector : Option String := none
  deriving DecidableEq, Repr

/-- A parsed flow document: the optional start element, the graph elements,
the declared variable names (`sf:variables` name children), the texts of
every `elementReference` / `inputReference` / `outputReference` / `value`
tag anywhere in the document, and the texts of the `sf:formulas`
expression children. -/
structure Flow where
  start : Option StartInfo := none
  elements : ElementMap := []
  variableNames : List String := []
  refTagTexts : List String := []
  formulas : List String := []
  deriving DecidableEq, Repr

/-- The entry-condition test of `_check_recursive_after_update`
(lines 1209-1214 and 1221-1226): a `filterLogic` child is present or at
least one `filters` child exists on the start element. -/
def hasEntryConditions (st : StartInfo) : Bool :=
  st.filterLogicPresent || decide (0 < st.filtersCount)

/-- `_check_recursive_after_update` (lines 1178-1231).  Applies only to
`RecordAfterSave` record-triggered flows with a trigger object; scans
every `recordUpdates` element for one whose `object` equals the trigger
object, or whose `inputReference` is the literal `$Record`, while no entry
conditions are configured. -/
def checkRecursiveAfterUpdate (f : Flow) : Bool :=
  match f.start with
  | none => false
  | some st =>
    match st.triggerType with
    | none => false
    | some tt =>
      if tt = "RecordAfterSave" then
        match st.object with
        | none => false
        | some trigObj =>
          f.elements.any (fun u =>
            u.etype == ElemType.recordUpdates
              && ((u.object == some trigObj && !hasEntryConditions st)
                || (u.inputReference == some "$Record"
                  && !hasEntryConditions st)))
      else false

/-- The critical issue appended by `_validate_error_handling` (line 534)
when `_check_recursive_after_update()` is true. -/
def recursiveUpdateIssue : Issue :=
  ⟨"CRITICAL",
    "INFINITE LOOP RISK: After-save flow updates same object without entry conditions"⟩

/-- The `critical_issues` list of `_validate_error_handling`
(lines 532-538), restricted to the recursive-update check verified here. -/
def errorHandlingCriticalIssues (f : Flow) : List Issue :=
  if checkRecursiveAfterUpdate f then [recursiveUpdateIssue] else []

/-- Every `targetReference` text occurring under one element: standard
connector, rule connectors, default connector, fault connector, and the
two loop connectors — `_check_unconnected_elements` line 1170 collects
them all with `findall('.//sf:targetReference')`. -/
def allConnectorTargets (e : Element) : List String :=
  e.connector.toList ++ e.rules ++ e.defaultConnector.toList
    ++ e.faultConnector.toList ++ e.nextValueConnector.toList
    ++ e.noMoreValuesConnector.toList

/-- The start element's connector target (lines 1163-1167). -/
def startTargets (f : Flow) : List String :=
  match f.start with
  | none => []
  | some st => st.connector.toList

/-- The `connected_elements` set of `_check_unconnected_elements`: the
start target plus every `targetReference` in the document. -/
def connectedTargets (f : Flow) : Finset String :=
  (startTargets f).toFinset
    ∪ ((f.elements.map allConnectorTargets).flatten).toFinset

/-- The `all_elements` set of `_check_unconnected_elements`: the names of
every element of the twelve mapped types. -/
def elementNames (f : Flow) : Finset String :=
  (f.elements.map Element.name).toFinset

/-- `_check_unconnected_elements` (lines 1137-1176): the set difference
`all_elements - connected_elements`. -/
def checkUnconnectedElements (f : Flow) : Finset String :=
  elementNames f \ connectedTargets f

/-- `_validate_architecture` lines 359-366 append a single advisory entry
when the orphan list is nonempty; this is its entry count. -/
def orphanAdvisoryCount (f : Flow) : Nat :=
  if checkUnconnectedElements f = ∅ then 0 else 1

/-- `text.split('.')[0]`: the prefix of a reference text before the first
dot. -/
def firstComponent (s : String) : String :=
  String.mk (s.data.takeWhile (fun c => !(c == '.')))

/-- A regex `\w` word character (ASCII). -/
def isWordChar (c : Char) : Bool :=
  c.isAlphanum || c == '_'

/-- A regex `\s` whitespace character (ASCII). -/
def isSpaceChar (c : Char) : Bool :=
  c == ' ' || c == '\t' || c == '\n' || c == '\r' || c == '\x0b' || c == '\x0c'

theorem length_dropWhile_le (p : Char → Bool) :
    ∀ l : List Char, (l.dropWhile p).length ≤ l.length := by
  intro l
  induction l with
  | nil => simp
  | cons a t ih =>
    by_cases h : p a = true
    · simp only [List.dropWhile_cons, h, if_true]
      exact Nat.le_succ_of_le ih
    · have h' : p a = false := by
        cases hb : p a
        · rfl
        · exact absurd hb h
      simp [List.dropWhile_cons, h']

/-- The variable tokens matched by `re.findall(r'\{!\s*(\w+)', expr)` in
`_check_unused_variables` (line 1130): each occurrence of a brace-bang
opener, optionally followed by whitespace, captures the following
nonempty word-character run; scanning resumes after each match. -/
def extractTokens : List Char → List String
  | [] => []
  | '{' :: '!' :: rest =>
    let rest2 := rest.dropWhile isSpaceChar
    let tok := rest2.takeWhile isWordChar
    if tok.isEmpty then extractTokens ('!' :: rest)
    else String.mk tok :: extractTokens (rest2.drop tok.length)
  | _ :: rest => extractTokens rest
termination_by l => l.length
decreasing_by
  · simp only [List.length_cons]
    omega
  · have h1 : ((List.dropWhile isSpaceChar rest).drop
        (List.takeWhile isWordChar (List.dropWhile isSpaceChar rest)).length).length =
          (List.dropWhile isSpaceChar rest).length -
            (List.takeWhile isWordChar (List.dropWhile isSpaceChar rest)).length :=
      List.length_drop _ _
    have h2 : (List.dropWhile isSpaceChar rest).length ≤ rest.length :=
      length_dropWhile_le isSpaceChar rest
    simp only [List.length_cons]
    omega
  · simp only [List.length_cons]
    omega

/-- The `referenced_vars` set of `_check_unused_variables`
(lines 1113-1131): the first dot-component of every nonempty
reference-tag text, plus the formula tokens. -/
def referencedVars (f : Flow) : Finset String :=
  ((f.refTagTexts.filter (fun s => !s.isEmpty)).map firstComponent).toFinset
    ∪ ((f.formulas.filter (fun s => !s.isEmpty)).map
        (fun s => extractTokens s.data)).flatten.toFinset

/-- `_check_unused_variables` (lines 1099-1135): the set difference
`defined_vars - referenced_vars`. -/
def unusedVariables (f : Flow) : Finset String :=
  f.variableNames.toFinset \ referencedVars f

/-- `_validate_architecture` lines 347-354 append a single advisory entry
when the unused-variable list is nonempty; this is its entry count. -/
def unusedAdvisoryCount (f : Flow) : Nat :=
  if unusedVariables f = ∅ then 0 else 1

/-- Append one element to the flow. -/
def addElement (f : Flow) (e : Element) : Flow :=
  { f with elements := f.elements ++ [e] }

/-- Add one connector edge with target `t` to every element named `src`
(as an extra rule connector). -/
def addRuleEdge (f : Flow) (src t : String) : Flow :=
  { f with elements := f.elements.map (fun e =>
      if e.name = src then { e with rules := e.rules ++ [t] } else e) }

/-! ## Supporting lemmas for the claim theorems -/

theorem matchOption_eq_true_iff {α : Type} (o : Option α) (g : α → Bool) :
    (match o with | none => false | some a => g a) = true ↔
      ∃ a, o = some a ∧ g a = true := by
  cases o <;> simp

/-- Characterisation of the loop iteration: some loop whose body entry is
present walks to a match. -/
theorem hasOpInLoops_eq_true_iff (isOp : ElemType → Bool) (m : ElementMap) :
    hasOpInLoops isOp m = true ↔
      ∃ lp ∈ m, lp.etype = ElemType.loops ∧
        ∃ b, lp.nextValueConnector = some b ∧
          hasOpInPath isOp m b lp.name lp.noMoreValuesConnector [] = true := by
  unfold hasOpInLoops
  rw [List.any_eq_true]
  constructor
  · rintro ⟨lp, hmem, hp⟩
    have hmem' := List.mem_filter.mp hmem
    cases hnext : lp.nextValueConnector with
    | none =>
      rw [hnext] at hp
      simp at hp
    | some b =>
      rw [hnext] at hp
      have hw : hasOpInPath isOp m b lp.name lp.noMoreValuesConnector []
          = true := hp
      exact ⟨lp, hmem'.1, by simpa using hmem'.2, b, hnext, hw⟩
  · rintro ⟨lp, hmem, hty, b, hb, hw⟩
    refine ⟨lp, List.mem_filter.mpr ⟨hmem, by simp [hty]⟩, ?_⟩
    rw [hb]
    exact hw

/-- Filtering with a stronger predicate does not change `any` when the
dropped entries never satisfy the tested function. -/
theorem filter_any_eq {α : Type} {q1 q2 p : α → Bool}
    (h21 : ∀ a, q2 a = true → q1 a = true)
    (h10 : ∀ a, q1 a = true → q2 a = false → p a = false) :
    ∀ l : List α, (l.filter q1).any p = (l.filter q2).any p := by
  intro l
  induction l with
  | nil => rfl
  | cons a t ih =>
    by_cases hq1 : q1 a = true
    · by_cases hq2 : q2 a = true
      · simp only [List.filter_cons, hq1, hq2, if_true, List.any_cons, ih]
      · have hq2' : q2 a = false := by
          cases hb : q2 a
          · rfl
          · exact absurd hb hq2
        have hp := h10 a hq1 hq2'
        simp only [List.filter_cons, hq1, hq2', if_true, Bool.false_eq_true,
          if_false, List.any_cons, hp, Bool.false_or, ih]
    · have hq1' : q1 a = false := by
        cases hb : q1 a
        · rfl
        · exact absurd hb hq1
      have hq2' : q2 a = false := by
        cases hb : q2 a
        · rfl
        · exact absurd (h21 a hb) hq1
      simp only [List.filter_cons, hq1', hq2', Bool.false_eq_true, if_false, ih]

/-- A walk started directly at the exit sentinel is false, whatever lies
beyond it. -/
theorem walk_exit_start_false (isOp : ElemType → Bool) (m : ElementMap)
    (t loopName : String) (visited : List String) :
    hasOpInPath isOp m t loopName (some t) visited = false := by
  by_cases h1 : t ∈ visited
  · exact hasOpInPath_visited h1
  · by_cases h2 : t = loopName
    · exact hasOpInPath_loop h2
    · exact hasOpInPath_exit rfl

theorem count_dmlIssue (m : ElementMap) :
    (logicStructureCriticalIssues m).count dmlIssue =
      (if hasDmlInLoops m then 1 else 0) := by
  unfold logicStructureCriticalIssues
  have hne : (soqlIssue == dmlIssue) = false := by decide
  by_cases h1 : hasDmlInLoops m <;> by_cases h2 : hasSoqlInLoops m <;>
    simp [h1, h2, List.count_cons, List.count_nil, hne]

theorem count_soqlIssue (m : ElementMap) :
    (logicStructureCriticalIssues m).count soqlIssue =
      (if hasSoqlInLoops m then 1 else 0) := by
  unfold logicStructureCriticalIssues
  have hne : (dmlIssue == soqlIssue) = false := by decide
  by_cases h1 : hasDmlInLoops m <;> by_cases h2 : hasSoqlInLoops m <;>
    simp [h1, h2, List.count_cons, List.count_nil, hne]

theorem count_actionWarning (m : ElementMap) :
    (logicStructureWarnings m).count actionWarning =
      (if checkActionCallsInLoop m then 1 else 0) := by
  unfold logicStructureWarnings
  by_cases h : checkActionCallsInLoop m <;> simp [h]

theorem severity_criticalIssues (m : ElementMap) :
    ∀ i ∈ logicStructureCriticalIssues m, i.severity = "CRITICAL" := by
  intro i hi
  unfold logicStructureCriticalIssues at hi
  rcases List.mem_append.mp hi with h | h <;>
    [skip; skip] <;> split at h <;>
    simp_all [dmlIssue, soqlIssue]

theorem severity_warnings (m : ElementMap) :
    ∀ i ∈ logicStructureWarnings m, i.severity = "HIGH" := by
  intro i hi
  unfold logicStructureWarnings at hi
  split at hi <;> simp_all [actionWarning]

/-! ## Concrete fixtures used by witnesses and counterexamples -/

/-- The canonical collect-into-a-list loop: body assigns and loops back,
exit leads directly to a write. -/
def gLoopElem : Element :=
  { name := "L", etype := ElemType.loops, nextValueConnector := some "A",
    noMoreValuesConnector := some "X" }

def gAssign : Element :=
  { name := "A", etype := ElemType.assignments, connector := some "L" }

def gWrite : Element :=
  { name := "X", etype := ElemType.recordUpdates }

def gExitWrite : ElementMap := [gLoopElem, gAssign, gWrite]

/-! ## Claim theorems -/

/-- **C1** (exit-path exemption).  For a loop whose repeat-body path
contains no write (no sentinel-avoiding path from the body entry reaches a
DML element) while the exit path leads to a write, the write-in-loop walk
for that loop returns `false`; and, in general, a walk that starts at the
declared exit target of its loop returns `false` immediately, regardless
of what lies beyond that target. -/
theorem C1_exit_path_exemption (m : ElementMap) (lp : Element) (b x : String)
    (hty : lp.etype = ElemType.loops)
    (hb : lp.nextValueConnector = some b)
    (hx : lp.noMoreValuesConnector = some x)
    (hnobody : ∀ l, ¬ PathTo isDML m (some lp.name) (some x) b l)
    (hexit : ∃ l, PathTo isDML m none none x l) :
    hasOpInPath isDML m b lp.name (some x) [] = false
    ∧ ∀ (isOp : ElemType → Bool) (m2 : ElementMap) (loopName e : String)
        (visited : List String),
        hasOpInPath isOp m2 e loopName (some e) visited = false := by
  constructor
  · cases hw : hasOpInPath isDML m b lp.name (some x) [] with
    | false => rfl
    | true =>
      exfalso
      obtain ⟨l, hl⟩ :=
        pathTo_of_walk (unvisited m []) [] (Nat.le_refl _) b hw
      exact hnobody l hl
  · intro isOp m2 loopName e visited
    exact walk_exit_start_false isOp m2 e loopName visited

/-- Witness for C1 on the canonical fixture: the exit target `X` is a
write, the body contains none, and the walk from the body entry returns
`false`. -/
theorem C1_exit_path_exemption_witness :
    lookupElem gExitWrite "X" = some gWrite ∧ isDML gWrite.etype = true
    ∧ hasOpInPath isDML gExitWrite "A" "L" (some "X") [] = false := by
  have hfalse : hasOpInPath isDML gExitWrite "A" "L" (some "X") [] = false := by
    rw [hasOpInPath_eq_F]
    decide
  have hnobody : ∀ l, ¬ PathTo isDML gExitWrite (some "L") (some "X") "A" l := by
    intro l hl
    obtain ⟨l', hnd, hp'⟩ := pathTo_nodup hl
    have htrue := walk_of_pathTo hp' hnd [] (by simp)
    rw [hfalse] at htrue
    cases htrue
  have hexit : ∃ l, PathTo isDML gExitWrite none none "X" l :=
    ⟨["X"], @PathTo.found isDML gExitWrite none none "X" gWrite
      (by simp) (by simp) (by decide) (by decide)⟩
  refine ⟨by decide, by decide, ?_⟩
  exact (C1_exit_path_exemption gExitWrite gLoopElem "A" "X" rfl rfl rfl
    hnobody hexit).1

/-- **C2** (walker completeness under branch-cloned visited sets).  The
reachability walk from a start node returns `true` exactly when some path
along non-fault edges reaches an element satisfying the predicate while
avoiding both the originating loop element and its exit target.  The
right-to-left direction is exactly the guarantee that per-branch cloning
of the visited set never masks a match found through a sibling branch. -/
theorem C2_walker_completeness (isOp : ElemType → Bool) (m : ElementMap)
    (start loopName : String) (exitTarget : Option String) :
    hasOpInPath isOp m start loopName exitTarget [] = true ↔
      ∃ l, PathTo isOp m (some loopName) exitTarget start l := by
  constructor
  · intro h
    exact pathTo_of_walk (unvisited m []) [] (Nat.le_refl _) start h
  · rintro ⟨l, hp⟩
    obtain ⟨l', hnd, hp'⟩ := pathTo_nodup hp
    exact walk_of_pathTo hp' hnd [] (by simp)

/-- **C4** (fault-path exclusion).  Erasing every fault connector changes
neither any walk, nor any loop-based detector verdict, nor the emitted
issue lists — the walks never follow fault edges.  The final conjunct
records the reason: the successor enumeration of an element does not read
its fault connector. -/
theorem C4_fault_path_exclusion :
    (∀ (isOp : ElemType → Bool) (m : ElementMap) (current loopName : String)
        (exitTarget : Option String) (visited : List String),
      hasOpInPath isOp (eraseFaults m) current loopName exitTarget visited =
        hasOpInPath isOp m current loopName exitTarget visited)
    ∧ (∀ (isOp : ElemType → Bool) (m : ElementMap),
        hasOpInLoops isOp (eraseFaults m) = hasOpInLoops isOp m)
    ∧ (∀ m : ElementMap,
        logicStructureCriticalIssues (eraseFaults m) =
          logicStructureCriticalIssues m)
    ∧ (∀ m : ElementMap,
        logicStructureWarnings (eraseFaults m) = logicStructureWarnings m)
    ∧ (∀ e : Element, outConnectors (eraseFault e) = outConnectors e) := by
  refine ⟨?_, ?_, ?_, ?_, ?_⟩
  · intro isOp m current loopName exitTarget visited
    exact walk_eraseFaults isOp m (unvisited m visited) visited
      (Nat.le_refl _) current loopName exitTarget
  · intro isOp m
    exact hasOpInLoops_eraseFaults isOp m
  · intro m
    exact (logicIssues_eraseFaults m).1
  · intro m
    exact (logicIssues_eraseFaults m).2
  · intro e
    rfl

/-- **C6** (termination).  On every finite graph — cyclic or not, with or
without loop-mediated cycles — every reachability walk of the loop-based
detectors finishes within `|graph| + 1` nested recursion levels: the
step-bounded interpreter with that budget never runs out of fuel and
returns exactly the walk's verdict. -/
theorem C6_walk_termination :
    (∀ (isOp : ElemType → Bool) (m : ElementMap) (current loopName : String)
        (exitTarget : Option String) (visited : List String),
      hasOpInPathF (m.length + 1) isOp m current loopName exitTarget visited =
        some (hasOpInPath isOp m current loopName exitTarget visited))
    ∧ (∀ (isOp : ElemType → Bool) (m : ElementMap),
        hasOpInLoopsF (m.length + 1) isOp m = hasOpInLoops isOp m) := by
  constructor
  · intro isOp m current loopName exitTarget visited
    exact hasOpInPathF_correct isOp m (m.length + 1) visited
      (Nat.lt_succ_of_le (unvisited_le_length m visited)) current loopName
      exitTarget
  · intro isOp m
    exact (hasOpInLoops_eq_F isOp m).symm

/-- **C9** (malformed-loop silence).  A loop without a repeat-body entry is
skipped by the loop iteration — dropping all such loops leaves the
detector verdict unchanged — and a walk whose current node resolves to no
known element returns `false` without error. -/
theorem C9_malformed_loop_silence :
    (∀ (isOp : ElemType → Bool) (m : ElementMap),
      hasOpInLoops isOp m =
        (m.filter (fun e => e.etype == ElemType.loops
            && e.nextValueConnector.isSome)).any (fun lp =>
          match lp.nextValueConnector with
          | none => false
          | some body =>
            hasOpInPath isOp m body lp.name lp.noMoreValuesConnector []))
    ∧ (∀ (isOp : ElemType → Bool) (m : ElementMap) (current loopName : String)
        (exitTarget : Option String) (visited : List String),
        lookupElem m current = none →
        hasOpInPath isOp m current loopName exitTarget visited = false) := by
  constructor
  · intro isOp m
    unfold hasOpInLoops
    apply filter_any_eq
    · intro a hq2
      exact (Bool.and_eq_true _ _).mp hq2 |>.1
    · intro a hq1 hq2
      have hnone : a.nextValueConnector = none := by
        rcases hn : a.nextValueConnector with _ | b
        · rfl
        · rw [Bool.and_eq_false_iff] at hq2
          rcases hq2 with h | h
          · rw [h] at hq1
            cases hq1
          · rw [hn] at h
            cases h
      rw [hnone]
  · intro isOp m current loopName exitTarget visited h
    exact hasOpInPath_dangling h

/-- Witness for C9: on the empty graph every start name is dangling and
the walk returns `false`. -/
theorem C9_malformed_loop_silence_witness :
    lookupElem ([] : ElementMap) "X" = none
    ∧ hasOpInPath (fun _ => true) [] "X" "L" none [] = false := by
  refine ⟨rfl, ?_⟩
  exact C9_malformed_loop_silence.2 (fun _ => true) [] "X" "L" none [] rfl

/-- The degenerate loop whose body entry and exit target coincide, both
pointing at a write. -/
def gCoincideLoop : Element :=
  { name := "L", etype := ElemType.loops, nextValueConnector := some "W",
    noMoreValuesConnector := some "W" }

def gCoincideWrite : Element :=
  { name := "W", etype := ElemType.recordUpdates }

def gCoincide : ElementMap := [gCoincideLoop, gCoincideWrite]

/-- **C10** (body-entry/exit coincidence).  When a loop's repeat-body entry
target equals its exit target, the loop's walk — and hence its
contribution to any loop-based detector — is `false`, even when the shared
target is a write, query or action element: the exit-sentinel guard fires
before the operation predicate is ever evaluated. -/
theorem C10_body_exit_coincidence (isOp : ElemType → Bool) (m : ElementMap)
    (lp : Element) (t : String) (hmem : lp ∈ m)
    (hty : lp.etype = ElemType.loops)
    (hb : lp.nextValueConnector = some t)
    (hx : lp.noMoreValuesConnector = some t) :
    (match lp.nextValueConnector with
      | none => false
      | some body =>
        hasOpInPath isOp m body lp.name lp.noMoreValuesConnector []) =
      false := by
  rw [hb, hx]
  exact walk_exit_start_false isOp m t lp.name []

/-- Witness for C10 on the degenerate fixture: the shared target is a
write, yet the loop's walk is `false`. -/
theorem C10_body_exit_coincidence_witness :
    isDML gCoincideWrite.etype = true
    ∧ (match gCoincideLoop.nextValueConnector with
        | none => false
        | some body =>
          hasOpInPath isDML gCoincide body gCoincideLoop.name
            gCoincideLoop.noMoreValuesConnector []) = false := by
  refine ⟨by decide, ?_⟩
  exact C10_body_exit_coincidence isDML gCoincide gCoincideLoop "W"
    (by simp [gCoincide]) rfl rfl rfl

/-! ## C3: per-document (not per-loop) issue granularity -/

/-- Two distinct loops, each with a write directly on its repeat-body
path. -/
def gTwoLoops : ElementMap :=
  [ { name := "L1", etype := ElemType.loops, nextValueConnector := some "W1",
      noMoreValuesConnector := some "X1" },
    { name := "W1", etype := ElemType.recordUpdates },
    { name := "X1", etype := ElemType.assignments },
    { name := "L2", etype := ElemType.loops, nextValueConnector := some "W2",
      noMoreValuesConnector := some "X2" },
    { name := "W2", etype := ElemType.recordCreates },
    { name := "X2", etype := ElemType.assignments } ]

/-- **C3 counterexample.**  `gTwoLoops` has two loops and each one's body
walk finds a write, yet `_validate_logic_structure` appends exactly one
critical issue — not one finding per offending loop, and no finding names
a loop.  The claim predicts two findings here. -/
theorem C3_loop_findings_counterexample :
    (gTwoLoops.filter (fun e => e.etype == ElemType.loops)).length = 2
    ∧ hasOpInPath isDML gTwoLoops "W1" "L1" (some "X1") [] = true
    ∧ hasOpInPath isDML gTwoLoops "W2" "L2" (some "X2") [] = true
    ∧ (logicStructureCriticalIssues gTwoLoops).length = 1 := by
  have hD : hasDmlInLoops gTwoLoops = true := by
    show hasOpInLoops isDML gTwoLoops = true
    rw [hasOpInLoops_eq_F]
    decide
  have hS : hasSoqlInLoops gTwoLoops = false := by
    show hasOpInLoops isSOQL gTwoLoops = false
    rw [hasOpInLoops_eq_F]
    decide
  refine ⟨by decide, ?_, ?_, ?_⟩
  · rw [hasOpInPath_eq_F]
    decide
  · rw [hasOpInPath_eq_F]
    decide
  · simp [logicStructureCriticalIssues, hD, hS]

/-- **C3 amended.**  The loop-based detectors aggregate per document: the
DML (resp. SOQL) critical issue appears exactly once when at least one
loop walks to a write (resp. query) and never otherwise, the action-call
warning likewise; severities are `CRITICAL` for write/query and `HIGH`
for external calls; no issue names the offending loop. -/
theorem C3_loop_findings_amended (m : ElementMap) :
    (hasDmlInLoops m = true ↔ ∃ lp ∈ m, lp.etype = ElemType.loops ∧
        ∃ b, lp.nextValueConnector = some b ∧
          hasOpInPath isDML m b lp.name lp.noMoreValuesConnector [] = true)
    ∧ (logicStructureCriticalIssues m).count dmlIssue =
        (if hasDmlInLoops m then 1 else 0)
    ∧ (logicStructureCriticalIssues m).count soqlIssue =
        (if hasSoqlInLoops m then 1 else 0)
    ∧ (logicStructureWarnings m).count actionWarning =
        (if checkActionCallsInLoop m then 1 else 0)
    ∧ (∀ i ∈ logicStructureCriticalIssues m, i.severity = "CRITICAL")
    ∧ (∀ i ∈ logicStructureWarnings m, i.severity = "HIGH") :=
  ⟨hasOpInLoops_eq_true_iff isDML m, count_dmlIssue m, count_soqlIssue m,
    count_actionWarning m, severity_criticalIssues m, severity_warnings m⟩

/-- Witness for C3 amended: on the two-loop fixture the DML issue is
emitted and its severity is `CRITICAL`. -/
theorem C3_loop_findings_witness :
    dmlIssue ∈ logicStructureCriticalIssues gTwoLoops
    ∧ dmlIssue.severity = "CRITICAL" := by
  have hD : hasDmlInLoops gTwoLoops = true := by
    show hasOpInLoops isDML gTwoLoops = true
    rw [hasOpInLoops_eq_F]
    decide
  have hmem : dmlIssue ∈ logicStructureCriticalIssues gTwoLoops := by
    unfold logicStructureCriticalIssues
    rw [hD]
    simp
  exact ⟨hmem, (C3_loop_findings_amended gTwoLoops).2.2.2.2.1 dmlIssue hmem⟩

/-! ## C5: the recursive-update detector scans only update elements -/

/-- An after-save start on `Case` with no entry conditions. -/
def cStart : StartInfo :=
  { triggerType := some "RecordAfterSave", object := some "Case" }

/-- A create-kind write targeting the trigger object. -/
def cCreate : Element :=
  { name := "C1", etype := ElemType.recordCreates, object := some "Case" }

/-- A flow whose only write is a `recordCreates` targeting the trigger
object. -/
def flowCreateCase : Flow :=
  { start := some cStart, elements := [cCreate] }

/-- **C5 counterexample.**  `flowCreateCase` contains a Write element
(create kind) whose target object equals the trigger object, and no entry
filter is configured — the claim demands exactly one Critical finding —
yet the detector, which scans only `recordUpdates` elements, emits
none. -/
theorem C5_recursive_update_counterexample :
    (∃ u ∈ flowCreateCase.elements, isDML u.etype = true
      ∧ u.object = some "Case")
    ∧ flowCreateCase.start = some cStart
    ∧ hasEntryConditions cStart = false
    ∧ checkRecursiveAfterUpdate flowCreateCase = false
    ∧ errorHandlingCriticalIssues flowCreateCase = [] := by decide

/-- **C5 amended.**  For an after-save flow with trigger object `trigObj`,
the detector fires exactly when some *update-kind* write element targets
`trigObj` or inputs the `$Record` trigger record while no entry filter is
configured; the verdict yields exactly one Critical issue, an entry filter
suppresses every finding, and every emitted issue is `CRITICAL`. -/
theorem C5_recursive_update_amended (f : Flow) (st : StartInfo)
    (trigObj : String) (hs : f.start = some st)
    (ht : st.triggerType = some "RecordAfterSave")
    (ho : st.object = some trigObj) :
    (checkRecursiveAfterUpdate f = true ↔
      (hasEntryConditions st = false ∧ ∃ u ∈ f.elements,
        u.etype = ElemType.recordUpdates ∧
          (u.object = some trigObj ∨ u.inputReference = some "$Record")))
    ∧ (errorHandlingCriticalIssues f).length =
        (if checkRecursiveAfterUpdate f then 1 else 0)
    ∧ (hasEntryConditions st = true → errorHandlingCriticalIssues f = [])
    ∧ (∀ i ∈ errorHandlingCriticalIssues f, i.severity = "CRITICAL") := by
  have hstep : checkRecursiveAfterUpdate f = f.elements.any (fun u =>
      u.etype == ElemType.recordUpdates
        && ((u.object == some trigObj && !hasEntryConditions st)
          || (u.inputReference == some "$Record"
            && !hasEntryConditions st))) := by
    unfold checkRecursiveAfterUpdate
    simp only [hs, ht, ho, if_pos]
  have hiff : checkRecursiveAfterUpdate f = true ↔
      (hasEntryConditions st = false ∧ ∃ u ∈ f.elements,
        u.etype = ElemType.recordUpdates ∧
          (u.object = some trigObj ∨ u.inputReference = some "$Record")) := by
    rw [hstep, List.any_eq_true]
    constructor
    · rintro ⟨u, hu, hpred⟩
      simp only [Bool.and_eq_true, Bool.or_eq_true, beq_iff_eq,
        Bool.not_eq_true'] at hpred
      obtain ⟨hty, hcase⟩ := hpred
      rcases hcase with ⟨hobj, hec⟩ | ⟨href, hec⟩
      · exact ⟨hec, u, hu, hty, Or.inl hobj⟩
      · exact ⟨hec, u, hu, hty, Or.inr href⟩
    · rintro ⟨hec, u, hu, hty, hcase⟩
      refine ⟨u, hu, ?_⟩
      simp only [Bool.and_eq_true, Bool.or_eq_true, beq_iff_eq,
        Bool.not_eq_true']
      rcases hcase with h | h
      · exact ⟨hty, Or.inl ⟨h, hec⟩⟩
      · exact ⟨hty, Or.inr ⟨h, hec⟩⟩
  refine ⟨hiff, ?_, ?_, ?_⟩
  · unfold errorHandlingCriticalIssues
    by_cases hc : checkRecursiveAfterUpdate f = true <;> simp [hc]
  · intro hec
    unfold errorHandlingCriticalIssues
    by_cases hc : checkRecursiveAfterUpdate f = true
    · exfalso
      have := (hiff.mp hc).1
      rw [hec] at this
      cases this
    · simp [hc]
  · intro i hi
    unfold errorHandlingCriticalIssues at hi
    split at hi
    · simp only [List.mem_singleton] at hi
      rw [hi]
      rfl
    · cases hi

/-- An update-kind write targeting the trigger object. -/
def cUpdate : Element :=
  { name := "U1", etype := ElemType.recordUpdates, object := some "Case" }

/-- A flow whose only write is a `recordUpdates` targeting the trigger
object, with no entry filter. -/
def flowUpdateCase : Flow :=
  { start := some cStart, elements := [cUpdate] }

/-- Witness for C5 amended: an update of the trigger object with no entry
filter fires the detector and yields exactly one issue. -/
theorem C5_recursive_update_witness :
    checkRecursiveAfterUpdate flowUpdateCase = true
    ∧ (errorHandlingCriticalIssues flowUpdateCase).length = 1 := by
  have h := C5_recursive_update_amended flowUpdateCase cStart "Case"
    rfl rfl rfl
  have hcr : checkRecursiveAfterUpdate flowUpdateCase = true :=
    h.1.mpr ⟨rfl, cUpdate, by simp [flowUpdateCase], rfl, Or.inl rfl⟩
  refine ⟨hcr, ?_⟩
  rw [h.2.1, hcr]
  rfl

/-! ## C7: the orphan detector -/

theorem map_congr_of_eq {α β : Type} {f g : α → β}
    (h : ∀ a, f a = g a) : ∀ l : List α, l.map f = l.map g := by
  intro l
  induction l with
  | nil => rfl
  | cons a t ih => simp [h a, ih]

theorem elementNames_addElement (f : Flow) (e : Element) :
    elementNames (addElement f e) = elementNames f ∪ {e.name} := by
  simp [elementNames, addElement, List.toFinset_append]

theorem connectedTargets_addElement (f : Flow) (e : Element) :
    connectedTargets (addElement f e) =
      connectedTargets f ∪ (allConnectorTargets e).toFinset := by
  unfold connectedTargets addElement startTargets
  simp [List.toFinset_append, Finset.union_assoc]

theorem checkUnconnected_addElement (f : Flow) (e : Element)
    (h1 : e.name ∉ elementNames f) (h2 : e.name ∉ connectedTargets f)
    (h3 : e.name ∉ allConnectorTargets e)
    (h4 : ∀ t2 ∈ allConnectorTargets e, t2 ∉ checkUnconnectedElements f) :
    checkUnconnectedElements (addElement f e) =
      insert e.name (checkUnconnectedElements f) := by
  unfold checkUnconnectedElements
  rw [elementNames_addElement, connectedTargets_addElement]
  ext n
  simp only [Finset.mem_sdiff, Finset.mem_union, Finset.mem_insert,
    Finset.mem_singleton, List.mem_toFinset]
  constructor
  · rintro ⟨hna | rfl, hnc⟩
    · right
      exact ⟨hna, fun hc => hnc (Or.inl hc)⟩
    · left
      rfl
  · rintro (rfl | ⟨hna, hnc⟩)
    · refine ⟨Or.inr rfl, ?_⟩
      rintro (hc | hc)
      · exact h2 hc
      · exact h3 hc
    · refine ⟨Or.inl hna, ?_⟩
      rintro (hc | hc)
      · exact hnc hc
      · exact h4 n hc (Finset.mem_sdiff.mpr ⟨by simpa using hna, hnc⟩)

theorem mem_connectedTargets (f : Flow) (n : String) :
    n ∈ connectedTargets f ↔
      n ∈ startTargets f ∨ ∃ e ∈ f.elements, n ∈ allConnectorTargets e := by
  unfold connectedTargets
  simp [List.mem_flatten, List.mem_map]

/-- **C7 counterexample.**  `flowOrphan` has exactly one orphan (`O`).
Adding the element `N` — which nothing points to, but whose own connector
points at `O` — leaves the orphan count at one (N appears, O is rescued),
while the claim demands that the count increase by exactly one. -/
def oA : Element :=
  { name := "A", etype := ElemType.assignments, connector := some "B" }

def oB : Element := { name := "B", etype := ElemType.assignments }

def oO : Element := { name := "O", etype := ElemType.assignments }

def oM : Element := { name := "M", etype := ElemType.assignments }

def oN : Element :=
  { name := "N", etype := ElemType.assignments, connector := some "O" }

def flowOrphan : Flow :=
  { start := some { connector := some "A" }, elements := [oA, oB, oO] }

theorem C7_orphans_counterexample :
    (checkUnconnectedElements flowOrphan).card = 1
    ∧ "N" ∉ connectedTargets (addElement flowOrphan oN)
    ∧ (checkUnconnectedElements (addElement flowOrphan oN)).card = 1 := by
  decide

/-- **C7 amended.**  The detector computes exactly the set difference of
element names against connector targets plus the start target (reported
upstream as a single aggregated advisory, never more than one entry);
adding an element that nothing points to *and whose own connectors rescue
no current orphan* increases the orphan count by exactly one; adding an
edge from any existing element to a target removes that target from the
orphan set. -/
theorem C7_orphans_amended (f : Flow) (e : Element) (src t : String) :
    (∀ n, n ∈ checkUnconnectedElements f ↔
        n ∈ elementNames f ∧ n ∉ connectedTargets f)
    ∧ orphanAdvisoryCount f ≤ 1
    ∧ (e.name ∉ elementNames f → e.name ∉ connectedTargets f →
        e.name ∉ allConnectorTargets e →
        (∀ t2 ∈ allConnectorTargets e, t2 ∉ checkUnconnectedElements f) →
        (checkUnconnectedElements (addElement f e)).card =
          (checkUnconnectedElements f).card + 1)
    ∧ ((∃ s ∈ f.elements, s.name = src) →
        t ∉ checkUnconnectedElements (addRuleEdge f src t)) := by
  refine ⟨?_, ?_, ?_, ?_⟩
  · intro n
    exact Finset.mem_sdiff
  · unfold orphanAdvisoryCount
    split <;> omega
  · intro h1 h2 h3 h4
    rw [checkUnconnected_addElement f e h1 h2 h3 h4,
      Finset.card_insert_of_not_mem]
    intro hmem
    exact h1 (Finset.mem_sdiff.mp hmem).1
  · rintro ⟨s, hs, hname⟩ hmem
    apply (Finset.mem_sdiff.mp hmem).2
    rw [mem_connectedTargets]
    right
    refine ⟨{ s with rules := s.rules ++ [t] }, ?_, ?_⟩
    · show _ ∈ (addRuleEdge f src t).elements
      unfold addRuleEdge
      have : (if s.name = src then { s with rules := s.rules ++ [t] }
          else s) = { s with rules := s.rules ++ [t] } := if_pos hname
      rw [← this]
      exact List.mem_map_of_mem _ hs
    · simp [allConnectorTargets]

/-- Witness for C7 amended: adding the isolated element `M` increases the
orphan count by one, and adding the edge `A → O` removes `O` from the
orphan set. -/
theorem C7_orphans_witness :
    (checkUnconnectedElements (addElement flowOrphan oM)).card =
      (checkUnconnectedElements flowOrphan).card + 1
    ∧ "O" ∉ checkUnconnectedElements (addRuleEdge flowOrphan "A" "O") := by
  have h := C7_orphans_amended flowOrphan oM "A" "O"
  refine ⟨h.2.2.1 (by decide) (by decide) (by decide) (by decide), ?_⟩
  exact h.2.2.2 ⟨oA, by simp [flowOrphan], rfl⟩

/-! ## C8: the unused-variable detector -/

/-- Declared `A`, `B`, `C`; only `A` referenced anywhere. -/
def flowVars : Flow :=
  { variableNames := ["A", "B", "C"], refTagTexts := ["A"] }

/-- **C8 counterexample.**  The detector's set difference is exactly
`{B, C}` (two surviving identifiers), but the reporting layer appends a
single aggregated advisory — not one `Low`-severity finding per surviving
identifier (the repository attaches no severity to this advisory at
all). -/
theorem C8_unused_counterexample :
    unusedVariables flowVars = {"B", "C"}
    ∧ (unusedVariables flowVars).card = 2
    ∧ unusedAdvisoryCount flowVars = 1 := by decide

/-- **C8 amended.**  The detector computes exactly the set difference of
the declared variable names against the referenced identifiers (first
dot-component of each reference-tag text in the document, plus formula
tokens); the caller reports the survivors as one aggregated advisory
entry — present exactly when the difference is nonempty — rather than one
Low finding per identifier. -/
theorem C8_unused_amended (f : Flow) :
    (∀ n, n ∈ unusedVariables f ↔
        n ∈ f.variableNames ∧ n ∉ referencedVars f)
    ∧ unusedAdvisoryCount f ≤ 1
    ∧ (unusedAdvisoryCount f = 0 ↔ unusedVariables f = ∅) := by
  refine ⟨?_, ?_, ?_⟩
  · intro n
    unfold unusedVariables
    rw [Finset.mem_sdiff, List.mem_toFinset]
  · unfold unusedAdvisoryCount
    split <;> omega
  · by_cases h : unusedVariables f = ∅ <;> simp [unusedAdvisoryCount, h]

end FlowValidate
